import Mathlib

/-!
Verification of the taxonomy-enrichment batch job
(source: fetch_ncbi_taxID_to_taxinfo.py).

The Python source is shallowly embedded below:

* JSON values parsed by json.loads become the inductive `JValue`;
  Python dict/None/list semantics used by the script (dict.get with and
  without a default, subscripting, truthiness) become small total
  functions, with Python exceptions modelled by `Except PyError`.
* `fetch_taxonomy_data` is embedded over an abstract outcome of the
  external `datasets` process invocation (`RunOutcome`): an exit code
  plus the JSON parse of its stdout (`none` when json.loads would fail).
  The try/except wrapper becomes a total function from outcomes to
  `Option Row`, `none` being the Python return value None.
* `process_taxids` becomes a round function `roundStep` plus a
  fuel-driven loop `processRounds`; the external world is an oracle
  `Env` giving, for each TaxID and each attempt index, the outcome of
  that invocation.  The `time.sleep` call is a pure delay with no
  effect on the computed data and is not modelled.
* the pandas steps of `main` (dropna/unique, DataFrame-from-records,
  left merge on TaxID, fillna on the new columns) become `DataFrame`
  operations on association-list rows, where an absent key is NaN.
-/

/-- A JSON value as produced by json.loads.  Numbers in the taxonomy
responses are integers; objects keep their key order (Python dicts are
insertion ordered). -/
inductive JValue where
  | null : JValue
  | str : String → JValue
  | num : Int → JValue
  | arr : List JValue → JValue
  | obj : List (String × JValue) → JValue

mutual

/-- Structural equality test for JSON values. -/
def JValue.beq : JValue → JValue → Bool
  | .null, .null => true
  | .str a, .str b => a == b
  | .num a, .num b => a == b
  | .arr a, .arr b => beqJList a b
  | .obj a, .obj b => beqJObj a b
  | _, _ => false

/-- Structural equality test for JSON arrays. -/
def beqJList : List JValue → List JValue → Bool
  | [], [] => true
  | a :: as, b :: bs => JValue.beq a b && beqJList as bs
  | _, _ => false

/-- Structural equality test for JSON objects. -/
def beqJObj : List (String × JValue) → List (String × JValue) → Bool
  | [], [] => true
  | (k1, v1) :: as, (k2, v2) :: bs => k1 == k2 && JValue.beq v1 v2 && beqJObj as bs
  | _, _ => false

end

mutual

theorem JValue.beq_iff : ∀ a b : JValue, JValue.beq a b = true ↔ a = b
  | .null, .null => by simp [JValue.beq]
  | .str a, .str b => by simp [JValue.beq]
  | .num a, .num b => by simp [JValue.beq]
  | .arr a, .arr b => by
    simp only [JValue.beq, beqJList_iff a b]
    exact ⟨fun h => by rw [h], fun h => by injection h⟩
  | .obj a, .obj b => by
    simp only [JValue.beq, beqJObj_iff a b]
    exact ⟨fun h => by rw [h], fun h => by injection h⟩
  | .null, .str _ | .null, .num _ | .null, .arr _ | .null, .obj _ => by simp [JValue.beq]
  | .str _, .null | .str _, .num _ | .str _, .arr _ | .str _, .obj _ => by simp [JValue.beq]
  | .num _, .null | .num _, .str _ | .num _, .arr _ | .num _, .obj _ => by simp [JValue.beq]
  | .arr _, .null | .arr _, .str _ | .arr _, .num _ | .arr _, .obj _ => by simp [JValue.beq]
  | .obj _, .null | .obj _, .str _ | .obj _, .num _ | .obj _, .arr _ => by simp [JValue.beq]

theorem beqJList_iff : ∀ a b : List JValue, beqJList a b = true ↔ a = b
  | [], [] => by simp [beqJList]
  | [], _ :: _ => by simp [beqJList]
  | _ :: _, [] => by simp [beqJList]
  | a :: as, b :: bs => by
    simp only [beqJList, Bool.and_eq_true, JValue.beq_iff a b, beqJList_iff as bs,
      List.cons.injEq]

theorem beqJObj_iff : ∀ a b : List (String × JValue), beqJObj a b = true ↔ a = b
  | [], [] => by simp [beqJObj]
  | [], _ :: _ => by simp [beqJObj]
  | _ :: _, [] => by simp [beqJObj]
  | (k1, v1) :: as, (k2, v2) :: bs => by
    simp only [beqJObj, Bool.and_eq_true, JValue.beq_iff v1 v2, beqJObj_iff as bs,
      List.cons.injEq, Prod.mk.injEq, beq_iff_eq]

end

instance : DecidableEq JValue :=
  fun a b => decidable_of_iff (JValue.beq a b = true) (JValue.beq_iff a b)

/-- The Python exceptions that the script can raise while handling one
response body. -/
inductive PyError where
  | calledProcessError : PyError
  | jsonDecodeError : PyError
  | attributeError : PyError
  | keyError : PyError
  | typeError : PyError
deriving DecidableEq, Repr

/-- One row/record: a Python dict with string keys, in insertion order.
A key that is absent models a pandas NaN cell. -/
abbrev Row := List (String × JValue)

/-- Python d.get(key, default): only dicts have .get, anything else
raises AttributeError. -/
def pyGetD (v : JValue) (key : String) (dflt : JValue) : Except PyError JValue :=
  match v with
  | .obj fields => .ok ((fields.lookup key).getD dflt)
  | _ => .error .attributeError

/-- Python d.get(key) with no default: returns None for a missing key. -/
def pyGet1 (v : JValue) (key : String) : Except PyError JValue :=
  match v with
  | .obj fields => .ok ((fields.lookup key).getD .null)
  | _ => .error .attributeError

/-- Python v[key] subscripting with a string key: a dict either yields
the value or raises KeyError; every other value raises TypeError. -/
def pySubscript (v : JValue) (key : String) : Except PyError JValue :=
  match v with
  | .obj fields =>
    match fields.lookup key with
    | some w => .ok w
    | none => .error .keyError
  | _ => .error .typeError

/-- Python truthiness of a JSON value (None, empty containers, empty
string and zero are falsy). -/
def pyTruthy (v : JValue) : Bool :=
  match v with
  | .null => false
  | .str s => !(s == "")
  | .num n => !(n == 0)
  | .arr l => !l.isEmpty
  | .obj fields => !fields.isEmpty

/-- Outcome of one `datasets summary taxonomy taxon <id>` invocation:
exit code, the JSON parse of stdout (`none` when stdout is not valid
JSON, so json.loads raises), and stderr text. -/
structure RunOutcome where
  returncode : Nat
  stdout : Option JValue
  stderr : String

/-- subprocess.run with check equal True: a nonzero exit status raises
CalledProcessError, otherwise the completed process is returned. -/
def pyRunChecked (o : RunOutcome) : Except PyError RunOutcome :=
  if o.returncode ≠ 0 then .error .calledProcessError else .ok o

/-- The taxonomic ranks of interest, in the hierarchical order hard
coded at line 74 of the source. -/
def taxonomic_ranks : List String :=
  ["superkingdom", "kingdom", "phylum", "class", "order", "family", "genus", "species"]

/-- One iteration of the per-rank loop of fetch_taxonomy_data: look the
rank up by name in the classification dict, emit the id/name pair when
the taxon is truthy and the ('None','None') sentinel pair otherwise. -/
def stepRank (classification : JValue) (rank : String) : Except PyError Row :=
  match pyGet1 classification rank with
  | .error e => .error e
  | .ok taxon =>
    if pyTruthy taxon then
      match pySubscript taxon "id" with
      | .error e => .error e
      | .ok i =>
        match pySubscript taxon "name" with
        | .error e => .error e
        | .ok n => .ok [(rank ++ "_id", i), (rank ++ "_name", n)]
    else
      .ok [(rank ++ "_id", .str "None"), (rank ++ "_name", .str "None")]

/-- The per-rank loop over a list of ranks; since all produced keys are
distinct, the dict built by repeated assignment in the source equals
this concatenation in order. -/
def extractGo (classification : JValue) : List String → Except PyError Row
  | [] => .ok []
  | rank :: rest =>
    match stepRank classification rank with
    | .error e => .error e
    | .ok pr =>
      match extractGo classification rest with
      | .error e => .error e
      | .ok tail => .ok (pr ++ tail)

/-- The lineage extraction loop of fetch_taxonomy_data over the eight
fixed ranks. -/
def extractRanks (classification : JValue) : Except PyError Row :=
  extractGo classification taxonomic_ranks

/-- The body of the try block of fetch_taxonomy_data, with Python
exceptions as `Except` errors.  The `.ok none` value is the dead
`return None` branch guarded by the returncode test (dead because
check equal True already raised on a nonzero exit). -/
def fetchBody (o : RunOutcome) : Except PyError (Option Row) :=
  match pyRunChecked o with
  | .error e => .error e
  | .ok result =>
    if result.returncode ≠ 0 then .ok none
    else
      match result.stdout with
      | none => .error .jsonDecodeError
      | some taxonomy_json =>
        match pyGetD taxonomy_json "taxonomy" (.arr []) with
        | .error e => .error e
        | .ok taxonomy =>
          match pyGetD taxonomy "classification" (.obj []) with
          | .error e => .error e
          | .ok classification =>
            match extractRanks classification with
            | .error e => .error e
            | .ok taxonomy_info => .ok (some taxonomy_info)

/-- fetch_taxonomy_data: the try body wrapped in the except chain; all
three handlers (CalledProcessError, JSONDecodeError, Exception) return
None, so every raised error maps to `none`. -/
def fetch_taxonomy_data (o : RunOutcome) : Option Row :=
  match fetchBody o with
  | .ok r => r
  | .error _ => none

/-- The external world seen by process_taxids: for a TaxID and an
attempt index (0-based; equal to the retry counter at the time of the
call) the outcome of that datasets invocation. -/
abbrev Env := JValue → Nat → RunOutcome

/-- Whether the attempt with index `a` for TaxID `t` resolves it: the
Python test `if taxonomy_info:` is dict truthiness, so the fetch must
return a non-None, non-empty dict. -/
def resolves (env : Env) (t : JValue) (a : Nat) : Bool :=
  match fetch_taxonomy_data (env t a) with
  | some info => !info.isEmpty
  | none => false

/-- The literal fallback record appended once retries are exhausted
(source lines 129-138): note it holds only seven ranks — superkingdom
is missing — each with the string value None. -/
def exhaustedBase : Row :=
  [("kingdom_id", .str "None"), ("kingdom_name", .str "None"),
   ("phylum_id", .str "None"), ("phylum_name", .str "None"),
   ("class_id", .str "None"), ("class_name", .str "None"),
   ("order_id", .str "None"), ("order_name", .str "None"),
   ("family_id", .str "None"), ("family_name", .str "None"),
   ("genus_id", .str "None"), ("genus_name", .str "None"),
   ("species_id", .str "None"), ("species_name", .str "None")]

/-- The record appended for a TaxID whose retries are exhausted. -/
def exhaustedRecord (t : JValue) : Row :=
  exhaustedBase ++ [("TaxID", t)]

/-- Output of one round of the while loop of process_taxids: the
records appended to final_data during the round, the current_failed
dict for the next round, and the log of fetch calls issued (TaxID with
attempt index), all in iteration order. -/
structure RoundOut where
  recs : List Row
  fails : List (JValue × Nat)
  calls : List (JValue × Nat)

/-- One pass of the for loop over the failed_taxids dict (source lines
119-139): a pending TaxID below the retry ceiling is fetched and either
resolved (record appended) or re-queued with its counter incremented; a
pending TaxID at or above the ceiling gets the fallback record. -/
def roundStep (env : Env) (mr : Nat) : List (JValue × Nat) → RoundOut
  | [] => ⟨[], [], []⟩
  | (t, r) :: rest =>
    let o := roundStep env mr rest
    if r < mr then
      match fetch_taxonomy_data (env t r) with
      | some info =>
        if info.isEmpty then
          ⟨o.recs, (t, r + 1) :: o.fails, (t, r) :: o.calls⟩
        else
          ⟨(info ++ [("TaxID", t)]) :: o.recs, o.fails, (t, r) :: o.calls⟩
      | none => ⟨o.recs, (t, r + 1) :: o.fails, (t, r) :: o.calls⟩
    else
      ⟨exhaustedRecord t :: o.recs, o.fails, o.calls⟩

/-- The while loop of process_taxids, driven by fuel: each iteration
runs one round on the pending dict and recurses on current_failed.
`process_taxids` supplies fuel mr + 1, which is proved sufficient below
(the loop has provably emptied the pending dict by then, so the
fuel-out branch is never taken from the initial state). -/
def processRounds (env : Env) (mr : Nat) : Nat → List (JValue × Nat) → List Row × List (JValue × Nat)
  | 0, _ => ([], [])
  | fuel + 1, pending =>
    if pending.isEmpty then ([], [])
    else
      let o := roundStep env mr pending
      let rest := processRounds env mr fuel o.fails
      (o.recs ++ rest.1, o.calls ++ rest.2)

/-- Deduplication keeping the first occurrence of each value, as both
a Python dict comprehension (for key positions) and pandas unique do. -/
def uniqueFirstAux (seen : List JValue) : List JValue → List JValue
  | [] => []
  | x :: xs => if x ∈ seen then uniqueFirstAux seen xs else x :: uniqueFirstAux (x :: seen) xs

/-- First-occurrence deduplication of a list of values. -/
def uniqueFirst (l : List JValue) : List JValue :=
  uniqueFirstAux [] l

/-- The dict comprehension failed_taxids, one key per distinct TaxID in
first-occurrence order, every counter starting at 0. -/
def initState (taxids : List JValue) : List (JValue × Nat) :=
  (uniqueFirst taxids).map (fun t => (t, 0))

/-- The pending dict after n rounds, starting from a given state. -/
def pendingIter (env : Env) (mr : Nat) (pending : List (JValue × Nat)) : Nat → List (JValue × Nat)
  | 0 => pending
  | n + 1 => (roundStep env mr (pendingIter env mr pending n)).fails

/-- process_taxids: run rounds from the initial all-zero dict until the
pending dict empties (at most mr + 1 rounds, proved below), returning
the final_data records and the call log.  The per-round sleep delays
nothing observable here and is not modelled. -/
def process_taxids (env : Env) (mr : Nat) (taxids : List JValue) : List Row × List (JValue × Nat) :=
  processRounds env mr (mr + 1) (initState taxids)

/-- The predicate selecting records whose TaxID field holds t. -/
def recFor (t : JValue) (row : Row) : Bool :=
  row.lookup "TaxID" == some t

/-- A pandas DataFrame: a column list plus rows as dicts, where a key
absent from a row is a NaN cell. -/
structure DataFrame where
  cols : List String
  rows : List Row

/-- Column order of pd.DataFrame(list-of-dicts): keys in order of first
appearance across the records. -/
def dfColumnsAux (acc : List String) : List Row → List String
  | [] => acc
  | r :: rs => dfColumnsAux (acc ++ (r.map Prod.fst).filter (fun k => !(acc.contains k))) rs

/-- pd.DataFrame applied to the final_data records. -/
def recordsToFrame (recs : List Row) : DataFrame :=
  ⟨dfColumnsAux [] recs, recs⟩

/-- The output rows a single left row contributes to a left merge: one
row per right row with an equal, non-NaN key value, or the bare left
row (right cells NaN) when nothing matches.  NaN keys match nothing. -/
def mergeRow (right : DataFrame) (key : String) (lrow : Row) : List Row :=
  let ms := right.rows.filter (fun rrow =>
    match lrow.lookup key, rrow.lookup key with
    | some a, some b => a == b
    | _, _ => false)
  if ms.isEmpty then [lrow]
  else
    ms.map (fun rrow =>
      lrow ++ (right.cols.filter (fun c => c ≠ key)).filterMap
        (fun c => (rrow.lookup c).map (fun v => (c, v))))

/-- pd.merge(left, right, on=key, how=left): left columns then the
right columns other than the key (the script merges frames whose other
column names do not collide, so no suffixing is modelled), left row
order preserved. -/
def mergeLeft (left right : DataFrame) (key : String) : DataFrame :=
  ⟨left.cols ++ right.cols.filter (fun c => c ≠ key),
   left.rows.flatMap (mergeRow right key)⟩

/-- fillna over the given columns of one row: every NaN cell among them
becomes the string None. -/
def fillRow (cols : List String) (row : Row) : Row :=
  row ++ cols.filterMap (fun c =>
    match row.lookup c with
    | none => some (c, .str "None")
    | some _ => none)

/-- fillna applied to the given columns of every row. -/
def fillNoneCols (df : DataFrame) (cols : List String) : DataFrame :=
  ⟨df.cols, df.rows.map (fillRow cols)⟩

/-- df_input TaxID dropna unique tolist: the non-NaN TaxID cells in row
order, first-occurrence deduplicated. -/
def uniqueTaxids (df : DataFrame) : List JValue :=
  uniqueFirst (df.rows.filterMap (fun r => r.lookup "TaxID"))

/-- The data pipeline of main after the input file is read (source
lines 171-192): check the TaxID column, collect unique non-NaN TaxIDs,
fetch with default max_retries 3, left-merge on TaxID, fill NaN cells
of the new columns with the string None.  `none` models sys.exit for a
missing column or no valid TaxIDs; the call log is returned alongside
the output frame. -/
def mainRun (env : Env) (df_input : DataFrame) : Option (DataFrame × List (JValue × Nat)) :=
  if "TaxID" ∉ df_input.cols then none
  else
    let unique_taxids := uniqueTaxids df_input
    if unique_taxids.isEmpty then none
    else
      let pt := process_taxids env 3 unique_taxids
      let taxonomy_df := recordsToFrame pt.1
      let merged := mergeLeft df_input taxonomy_df "TaxID"
      let taxonomy_columns := merged.cols.filter (fun c => !(df_input.cols.contains c))
      some (fillNoneCols merged taxonomy_columns, pt.2)

/-- An environment in which every invocation exits with status 1. -/
def envFail : Env := fun _ _ => ⟨1, none, "error"⟩

/-- A well-formed response body carrying only the species rank. -/
def goodJson : JValue :=
  .obj [("taxonomy", .obj [("classification", .obj [
    ("species", .obj [("id", .num 9606), ("name", .str "Homo sapiens")])])])]

/-- An environment in which every invocation succeeds at once with
`goodJson`. -/
def envGood : Env := fun _ _ => ⟨0, some goodJson, ""⟩

/-- The record fetch_taxonomy_data extracts from `goodJson`. -/
def goodInfo : Row :=
  [("superkingdom_id", .str "None"), ("superkingdom_name", .str "None"),
   ("kingdom_id", .str "None"), ("kingdom_name", .str "None"),
   ("phylum_id", .str "None"), ("phylum_name", .str "None"),
   ("class_id", .str "None"), ("class_name", .str "None"),
   ("order_id", .str "None"), ("order_name", .str "None"),
   ("family_id", .str "None"), ("family_name", .str "None"),
   ("genus_id", .str "None"), ("genus_name", .str "None"),
   ("species_id", .num 9606), ("species_name", .str "Homo sapiens")]

/-- The record extracted from a response whose classification dict is
empty: all sixteen fields hold the string None. -/
def allNoneInfo : Row :=
  [("superkingdom_id", .str "None"), ("superkingdom_name", .str "None"),
   ("kingdom_id", .str "None"), ("kingdom_name", .str "None"),
   ("phylum_id", .str "None"), ("phylum_name", .str "None"),
   ("class_id", .str "None"), ("class_name", .str "None"),
   ("order_id", .str "None"), ("order_name", .str "None"),
   ("family_id", .str "None"), ("family_name", .str "None"),
   ("genus_id", .str "None"), ("genus_name", .str "None"),
   ("species_id", .str "None"), ("species_name", .str "None")]

/-- A success outcome whose classification dict is empty. -/
def emptyClassOutcome : RunOutcome :=
  ⟨0, some (.obj [("taxonomy", .obj [("classification", .obj [])])]), ""⟩

/-- The three-row single-column input table of the duplicate-TaxID
end-to-end scenario. -/
def dupFrame : DataFrame :=
  ⟨["TaxID"], [[("TaxID", .num 9606)], [("TaxID", .num 9606)], [("TaxID", .num 10090)]]⟩

/-- A two-row table whose second row has a NaN TaxID cell. -/
def nanFrame : DataFrame :=
  ⟨["TaxID"], [[("TaxID", .num 1)], []]⟩

/-- A one-row table holding only TaxID 0. -/
def zeroFrame : DataFrame :=
  ⟨["TaxID"], [[("TaxID", .num 0)]]⟩

/-! ## Association-list lookup helpers -/

theorem lookup_append_right {k : String} {l1 l2 : Row}
    (h : k ∉ l1.map Prod.fst) : (l1 ++ l2).lookup k = l2.lookup k := by
  induction l1 with
  | nil => rfl
  | cons p rest ih =>
    obtain ⟨k1, v1⟩ := p
    simp only [List.map_cons, List.mem_cons, not_or] at h
    have hb : (k == k1) = false := beq_false_of_ne h.1
    simpa [List.lookup_cons, hb] using ih h.2

theorem lookup_append_left {k : String} {l1 l2 : Row} {v : JValue}
    (h : l1.lookup k = some v) : (l1 ++ l2).lookup k = some v := by
  induction l1 with
  | nil => simp [List.lookup] at h
  | cons p rest ih =>
    obtain ⟨k1, v1⟩ := p
    cases hk : (k == k1) with
    | true =>
      simp only [List.lookup_cons, hk, if_pos] at h
      simpa [List.lookup_cons, hk] using h
    | false =>
      simp only [List.lookup_cons, hk] at h
      simpa [List.lookup_cons, hk] using ih h

/-! ## Facts about the lineage extraction of fetch_taxonomy_data -/

theorem stepRank_keys {c : JValue} {rank : String} {pr : Row}
    (h : stepRank c rank = .ok pr) : pr.map Prod.fst = [rank ++ "_id", rank ++ "_name"] := by
  unfold stepRank at h
  cases hg : pyGet1 c rank with
  | error e => rw [hg] at h; exact absurd h (by simp)
  | ok taxon =>
    rw [hg] at h
    dsimp only at h
    by_cases ht : pyTruthy taxon = true
    · rw [if_pos ht] at h
      cases hi : pySubscript taxon "id" with
      | error e => rw [hi] at h; exact absurd h (by simp)
      | ok i =>
        rw [hi] at h
        cases hn : pySubscript taxon "name" with
        | error e => rw [hn] at h; exact absurd h (by simp)
        | ok n =>
          rw [hn] at h
          injection h with h2
          rw [← h2]
          rfl
    · rw [if_neg ht] at h
      injection h with h2
      rw [← h2]
      rfl

theorem stepRank_absent {fs : List (String × JValue)} {rank : String}
    (h : fs.lookup rank = none) :
    stepRank (.obj fs) rank =
      .ok [(rank ++ "_id", .str "None"), (rank ++ "_name", .str "None")] := by
  unfold stepRank pyGet1
  dsimp only
  rw [h]
  rfl

theorem extractGo_cons_ok {c : JValue} {rank : String} {rest : List String} {info : Row}
    (h : extractGo c (rank :: rest) = .ok info) :
    ∃ pr tail, stepRank c rank = .ok pr ∧ extractGo c rest = .ok tail ∧ info = pr ++ tail := by
  unfold extractGo at h
  cases hs : stepRank c rank with
  | error e => rw [hs] at h; exact absurd h (by simp)
  | ok pr =>
    rw [hs] at h
    cases hg : extractGo c rest with
    | error e => rw [hg] at h; exact absurd h (by simp)
    | ok tail =>
      rw [hg] at h
      injection h with h2
      exact ⟨pr, tail, rfl, rfl, h2.symm⟩

theorem rank_id_ne_name (s : String) : (s ++ "_id") ≠ (s ++ "_name") := by
  intro h
  have hd := congrArg String.data h
  simp only [String.data_append] at hd
  have h2 := List.append_cancel_left hd
  have h3 : ("_id" : String) = "_name" := String.ext h2
  exact absurd h3 (by decide)

theorem extractGo_absent_lookup {fs : List (String × JValue)} {rank : String} :
    ∀ {L : List String} {info : Row}, extractGo (.obj fs) L = .ok info → rank ∈ L →
    fs.lookup rank = none →
    (∀ r ∈ L, r ≠ rank → (rank ++ "_id" ≠ r ++ "_id" ∧ rank ++ "_id" ≠ r ++ "_name" ∧
      rank ++ "_name" ≠ r ++ "_id" ∧ rank ++ "_name" ≠ r ++ "_name")) →
    info.lookup (rank ++ "_id") = some (.str "None") ∧
    info.lookup (rank ++ "_name") = some (.str "None") := by
  intro L
  induction L with
  | nil => intro info _ hm; exact absurd hm (by simp)
  | cons r rest ih =>
    intro info hok hm habs hfresh
    obtain ⟨pr, tail, hs, hrest, hinfo⟩ := extractGo_cons_ok hok
    subst hinfo
    by_cases hr : r = rank
    · subst hr
      rw [stepRank_absent habs] at hs
      injection hs with hpr
      rw [← hpr]
      constructor
      · rw [List.cons_append]
        simp [List.lookup_cons]
      · rw [List.cons_append]
        have h1 : ((r ++ "_name" == r ++ "_id")) = false :=
          beq_false_of_ne (Ne.symm (rank_id_ne_name r))
        simp [List.lookup_cons, h1]
    · have hfr := hfresh r (by simp) hr
      have hkeys := stepRank_keys hs
      have hnid : (rank ++ "_id") ∉ pr.map Prod.fst := by
        rw [hkeys]
        simp only [List.mem_cons, List.mem_singleton, List.not_mem_nil]
        intro hc
        rcases hc with hc | hc | hc
        · exact hfr.1 hc
        · exact hfr.2.1 hc
        · exact hc
      have hnname : (rank ++ "_name") ∉ pr.map Prod.fst := by
        rw [hkeys]
        simp only [List.mem_cons, List.mem_singleton, List.not_mem_nil]
        intro hc
        rcases hc with hc | hc | hc
        · exact hfr.2.2.1 hc
        · exact hfr.2.2.2 hc
        · exact hc
      have hmem : rank ∈ rest := by
        rcases List.mem_cons.mp hm with hc | hc
        · exact absurd hc.symm hr
        · exact hc
      have := ih hrest hmem habs (fun r2 h2 => hfresh r2 (List.mem_cons_of_mem r h2))
      exact ⟨by rw [lookup_append_right hnid]; exact this.1,
             by rw [lookup_append_right hnname]; exact this.2⟩

theorem ranks_fresh : ∀ rank ∈ taxonomic_ranks, ∀ r ∈ taxonomic_ranks, r ≠ rank →
    (rank ++ "_id" ≠ r ++ "_id" ∧ rank ++ "_id" ≠ r ++ "_name" ∧
     rank ++ "_name" ≠ r ++ "_id" ∧ rank ++ "_name" ≠ r ++ "_name") := by
  decide

theorem fetch_some_inv {o : RunOutcome} {info : Row}
    (h : fetch_taxonomy_data o = some info) :
    ∃ j tx c, o.returncode = 0 ∧ o.stdout = some j ∧
      pyGetD j "taxonomy" (.arr []) = .ok tx ∧
      pyGetD tx "classification" (.obj []) = .ok c ∧
      extractRanks c = .ok info := by
  unfold fetch_taxonomy_data fetchBody pyRunChecked at h
  by_cases hc : o.returncode ≠ 0
  · rw [if_pos hc] at h
    exact absurd h (by simp)
  · rw [if_neg hc] at h
    push_neg at hc
    dsimp only at h
    rw [if_neg (by simp [hc])] at h
    cases ho : o.stdout with
    | none => rw [ho] at h; exact absurd h (by simp)
    | some j =>
      rw [ho] at h
      dsimp only at h
      cases htx : pyGetD j "taxonomy" (.arr []) with
      | error e => rw [htx] at h; exact absurd h (by simp)
      | ok tx =>
        rw [htx] at h
        dsimp only at h
        cases hcl : pyGetD tx "classification" (.obj []) with
        | error e => rw [hcl] at h; exact absurd h (by simp)
        | ok c =>
          rw [hcl] at h
          dsimp only at h
          cases hex : extractRanks c with
          | error e => rw [hex] at h; exact absurd h (by simp)
          | ok info2 =>
            rw [hex] at h
            dsimp only at h
            simp only [Option.some.injEq] at h
            exact ⟨j, tx, c, hc, rfl, htx, hcl, by rw [hex, h]⟩

/-! ## Claim C1: sentinel pair for a rank absent from the classification -/

/-- Claim C1, amended: for every parsed classification structure and
every rank of the fixed eight-rank list, if the rank key is absent from
the classification dict and the fetch returns a record, that record
holds exactly the sentinel pair (None, None) for the rank: both the id
and the name key are present and both hold the string None.  (The
sentinel the source writes is the string None, not unknown.) -/
theorem C1_absent_rank_sentinel {o : RunOutcome} {info : Row} {j tx : JValue}
    {fs : List (String × JValue)} {rank : String}
    (hf : fetch_taxonomy_data o = some info)
    (hj : o.stdout = some j)
    (htx : pyGetD j "taxonomy" (.arr []) = .ok tx)
    (hcl : pyGetD tx "classification" (.obj []) = .ok (.obj fs))
    (hrank : rank ∈ taxonomic_ranks)
    (habs : fs.lookup rank = none) :
    info.lookup (rank ++ "_id") = some (.str "None") ∧
    info.lookup (rank ++ "_name") = some (.str "None") := by
  obtain ⟨j2, tx2, c2, hrc, hj2, htx2, hcl2, hex⟩ := fetch_some_inv hf
  rw [hj] at hj2
  injection hj2 with hj2
  subst hj2
  rw [htx] at htx2
  injection htx2 with htx2
  subst htx2
  rw [hcl] at hcl2
  injection hcl2 with hcl2
  subst hcl2
  unfold extractRanks at hex
  exact extractGo_absent_lookup hex hrank habs
    (fun r hrm hne => ranks_fresh rank hrank r hrm hne)

/-- Witness for C1 at a concrete response lacking superkingdom. -/
theorem C1_absent_rank_sentinel_witness :
    allNoneInfo.lookup "superkingdom_id" = some (.str "None") ∧
    allNoneInfo.lookup "superkingdom_name" = some (.str "None") :=
  @C1_absent_rank_sentinel emptyClassOutcome allNoneInfo
    (.obj [("taxonomy", .obj [("classification", .obj [])])])
    (.obj [("classification", .obj [])]) [] "superkingdom"
    (by decide) rfl rfl rfl (by decide) rfl

/-- Claim C1, counterexample to the claim as stated: at a concrete
response whose classification lacks superkingdom the emitted pair for
superkingdom is (None, None), not (unknown, unknown). -/
theorem C1_sentinel_not_unknown :
    fetch_taxonomy_data emptyClassOutcome = some allNoneInfo ∧
    allNoneInfo.lookup "superkingdom_id" ≠ some (.str "unknown") ∧
    allNoneInfo.lookup "superkingdom_name" ≠ some (.str "unknown") := by
  refine ⟨by decide, by decide, by decide⟩

/-! ## Claim C4: fetch maps every raised error to the failure value -/

/-- Claim C4: for every invocation outcome, fetch_taxonomy_data returns
the failure value none rather than letting an exception escape, in each
failure mode: a nonzero exit status (CalledProcessError from check),
a response body that is not valid JSON (JSONDecodeError from
json.loads), and any other error raised by the try body during parsing
(the catch-all Exception handler). -/
theorem C4_fetch_never_raises (o : RunOutcome) :
    (o.returncode ≠ 0 → fetch_taxonomy_data o = none) ∧
    (o.stdout = none → fetch_taxonomy_data o = none) ∧
    (∀ e, fetchBody o = .error e → fetch_taxonomy_data o = none) := by
  refine ⟨?_, ?_, ?_⟩
  · intro h
    unfold fetch_taxonomy_data fetchBody pyRunChecked
    rw [if_pos h]
  · intro h
    by_cases hc : o.returncode ≠ 0
    · unfold fetch_taxonomy_data fetchBody pyRunChecked
      rw [if_pos hc]
    · unfold fetch_taxonomy_data fetchBody pyRunChecked
      rw [if_neg hc]
      dsimp only
      push_neg at hc
      rw [if_neg (by simp [hc]), h]
  · intro e h
    unfold fetch_taxonomy_data
    rw [h]

/-- Witness for C4: a nonzero exit and an invalid body both yield the
failure value. -/
theorem C4_fetch_never_raises_witness :
    fetch_taxonomy_data ⟨1, none, "error"⟩ = none ∧
    fetch_taxonomy_data ⟨0, none, ""⟩ = none :=
  ⟨(C4_fetch_never_raises ⟨1, none, "error"⟩).1 (by decide),
   (C4_fetch_never_raises ⟨0, none, ""⟩).2.1 rfl⟩

/-! ## Equation lemmas for one round of process_taxids -/

theorem roundStep_nil {env : Env} {mr : Nat} : roundStep env mr [] = ⟨[], [], []⟩ := rfl

theorem roundStep_cons_exhaust {env : Env} {mr r : Nat} {t : JValue}
    {rest : List (JValue × Nat)} (hr : ¬ r < mr) :
    roundStep env mr ((t, r) :: rest) =
      ⟨exhaustedRecord t :: (roundStep env mr rest).recs,
       (roundStep env mr rest).fails, (roundStep env mr rest).calls⟩ := by
  conv_lhs => unfold roundStep
  rw [if_neg hr]

theorem roundStep_cons_fail_none {env : Env} {mr r : Nat} {t : JValue}
    {rest : List (JValue × Nat)} (hr : r < mr)
    (hf : fetch_taxonomy_data (env t r) = none) :
    roundStep env mr ((t, r) :: rest) =
      ⟨(roundStep env mr rest).recs, (t, r + 1) :: (roundStep env mr rest).fails,
       (t, r) :: (roundStep env mr rest).calls⟩ := by
  conv_lhs => unfold roundStep
  rw [if_pos hr, hf]

theorem roundStep_cons_fail_empty {env : Env} {mr r : Nat} {t : JValue} {info : Row}
    {rest : List (JValue × Nat)} (hr : r < mr)
    (hf : fetch_taxonomy_data (env t r) = some info) (he : info.isEmpty = true) :
    roundStep env mr ((t, r) :: rest) =
      ⟨(roundStep env mr rest).recs, (t, r + 1) :: (roundStep env mr rest).fails,
       (t, r) :: (roundStep env mr rest).calls⟩ := by
  conv_lhs => unfold roundStep
  rw [if_pos hr, hf]
  dsimp only
  rw [if_pos he]

theorem roundStep_cons_ok {env : Env} {mr r : Nat} {t : JValue} {info : Row}
    {rest : List (JValue × Nat)} (hr : r < mr)
    (hf : fetch_taxonomy_data (env t r) = some info) (he : info.isEmpty = false) :
    roundStep env mr ((t, r) :: rest) =
      ⟨(info ++ [("TaxID", t)]) :: (roundStep env mr rest).recs,
       (roundStep env mr rest).fails, (t, r) :: (roundStep env mr rest).calls⟩ := by
  conv_lhs => unfold roundStep
  rw [if_pos hr, hf]
  dsimp only
  rw [if_neg (by simp [he])]

theorem roundStep_cons_not_resolves {env : Env} {mr r : Nat} {t : JValue}
    {rest : List (JValue × Nat)} (hr : r < mr) (hres : resolves env t r = false) :
    roundStep env mr ((t, r) :: rest) =
      ⟨(roundStep env mr rest).recs, (t, r + 1) :: (roundStep env mr rest).fails,
       (t, r) :: (roundStep env mr rest).calls⟩ := by
  unfold resolves at hres
  cases hf : fetch_taxonomy_data (env t r) with
  | none => exact roundStep_cons_fail_none hr hf
  | some info =>
    rw [hf] at hres
    dsimp only at hres
    have he : info.isEmpty = true := by
      cases hie : info.isEmpty with
      | true => rfl
      | false => rw [hie] at hres; simp at hres
    exact roundStep_cons_fail_empty hr hf he

theorem roundStep_calls_cons {env : Env} {mr r : Nat} {t : JValue}
    {rest : List (JValue × Nat)} (hr : r < mr) :
    (roundStep env mr ((t, r) :: rest)).calls = (t, r) :: (roundStep env mr rest).calls := by
  cases hf : fetch_taxonomy_data (env t r) with
  | none => rw [roundStep_cons_fail_none hr hf]
  | some info =>
    cases he : info.isEmpty with
    | true => rw [roundStep_cons_fail_empty hr hf he]
    | false => rw [roundStep_cons_ok hr hf he]

/-! ## Shape of the pending dict across rounds -/

theorem roundStep_fails_shape {env : Env} {mr : Nat} :
    ∀ {pending : List (JValue × Nat)} {p : JValue × Nat},
    p ∈ (roundStep env mr pending).fails →
    ∃ r, (p.1, r) ∈ pending ∧ p.2 = r + 1 ∧ r < mr := by
  intro pending
  induction pending with
  | nil => intro p hp; rw [roundStep_nil] at hp; exact absurd hp (by simp)
  | cons q rest ih =>
    intro p hp
    obtain ⟨t, r⟩ := q
    by_cases hr : r < mr
    · cases hf : fetch_taxonomy_data (env t r) with
      | none =>
        rw [roundStep_cons_fail_none hr hf] at hp
        rcases List.mem_cons.mp hp with hc | hc
        · subst hc; exact ⟨r, by simp, rfl, hr⟩
        · obtain ⟨r2, hm, he, hlt⟩ := ih hc
          exact ⟨r2, List.mem_cons_of_mem _ hm, he, hlt⟩
      | some info =>
        cases he : info.isEmpty with
        | true =>
          rw [roundStep_cons_fail_empty hr hf he] at hp
          rcases List.mem_cons.mp hp with hc | hc
          · subst hc; exact ⟨r, by simp, rfl, hr⟩
          · obtain ⟨r2, hm, he2, hlt⟩ := ih hc
            exact ⟨r2, List.mem_cons_of_mem _ hm, he2, hlt⟩
        | false =>
          rw [roundStep_cons_ok hr hf he] at hp
          obtain ⟨r2, hm, he2, hlt⟩ := ih hp
          exact ⟨r2, List.mem_cons_of_mem _ hm, he2, hlt⟩
    · rw [roundStep_cons_exhaust hr] at hp
      obtain ⟨r2, hm, he2, hlt⟩ := ih hp
      exact ⟨r2, List.mem_cons_of_mem _ hm, he2, hlt⟩

theorem roundStep_fails_keys_sublist {env : Env} {mr : Nat} :
    ∀ pending : List (JValue × Nat),
    ((roundStep env mr pending).fails.map Prod.fst).Sublist (pending.map Prod.fst) := by
  intro pending
  induction pending with
  | nil => rw [roundStep_nil]
  | cons q rest ih =>
    obtain ⟨t, r⟩ := q
    by_cases hr : r < mr
    · cases hf : fetch_taxonomy_data (env t r) with
      | none =>
        rw [roundStep_cons_fail_none hr hf]
        exact List.Sublist.cons₂ _ ih
      | some info =>
        cases he : info.isEmpty with
        | true =>
          rw [roundStep_cons_fail_empty hr hf he]
          exact List.Sublist.cons₂ _ ih
        | false =>
          rw [roundStep_cons_ok hr hf he]
          exact List.Sublist.cons _ ih
    · rw [roundStep_cons_exhaust hr]
      exact List.Sublist.cons _ ih

theorem roundStep_calls_keys {env : Env} {mr : Nat} :
    ∀ {pending : List (JValue × Nat)} {p : JValue × Nat},
    p ∈ (roundStep env mr pending).calls → p.1 ∈ pending.map Prod.fst := by
  intro pending
  induction pending with
  | nil => intro p hp; rw [roundStep_nil] at hp; exact absurd hp (by simp)
  | cons q rest ih =>
    intro p hp
    obtain ⟨t, r⟩ := q
    by_cases hr : r < mr
    · rw [roundStep_calls_cons hr] at hp
      rcases List.mem_cons.mp hp with hc | hc
      · rw [hc]; simp
      · exact List.mem_cons_of_mem _ (ih hc)
    · rw [roundStep_cons_exhaust hr] at hp
      exact List.mem_cons_of_mem _ (ih hp)

/-! ## The TaxID field of the produced records -/

theorem extractGo_keys {c : JValue} : ∀ {L : List String} {info : Row},
    extractGo c L = .ok info →
    info.map Prod.fst = L.flatMap (fun r => [r ++ "_id", r ++ "_name"]) := by
  intro L
  induction L with
  | nil =>
    intro info h
    injection h with h2
    rw [← h2]
    rfl
  | cons r rest ih =>
    intro info h
    obtain ⟨pr, tail, hs, hrest, hinfo⟩ := extractGo_cons_ok h
    subst hinfo
    rw [List.map_append, stepRank_keys hs, ih hrest]
    rfl

theorem fetch_keys {o : RunOutcome} {info : Row}
    (h : fetch_taxonomy_data o = some info) :
    info.map Prod.fst = taxonomic_ranks.flatMap (fun r => [r ++ "_id", r ++ "_name"]) := by
  obtain ⟨j, tx, c, _, _, _, _, hex⟩ := fetch_some_inv h
  unfold extractRanks at hex
  exact extractGo_keys hex

theorem fetch_no_taxid_key {o : RunOutcome} {info : Row}
    (h : fetch_taxonomy_data o = some info) : "TaxID" ∉ info.map Prod.fst := by
  rw [fetch_keys h]
  decide

theorem fetch_not_isEmpty {o : RunOutcome} {info : Row}
    (h : fetch_taxonomy_data o = some info) : info.isEmpty = false := by
  have hk := fetch_keys h
  cases info with
  | nil => exact absurd hk (by decide)
  | cons p rest => rfl

theorem resolved_rec_taxid {o : RunOutcome} {info : Row} (t : JValue)
    (h : fetch_taxonomy_data o = some info) :
    (info ++ [("TaxID", t)]).lookup "TaxID" = some t := by
  rw [lookup_append_right (fetch_no_taxid_key h)]
  rfl

theorem exhausted_rec_taxid (t : JValue) : (exhaustedRecord t).lookup "TaxID" = some t := by
  rfl

theorem recFor_resolved {o : RunOutcome} {info : Row} (t t2 : JValue)
    (h : fetch_taxonomy_data o = some info) :
    recFor t (info ++ [("TaxID", t2)]) = (t2 == t) := by
  unfold recFor
  rw [resolved_rec_taxid t2 h]
  by_cases he : t2 = t
  · subst he; simp
  · simp [he]

theorem recFor_exhausted (t t2 : JValue) : recFor t (exhaustedRecord t2) = (t2 == t) := by
  unfold recFor
  rw [exhausted_rec_taxid t2]
  by_cases he : t2 = t
  · subst he; simp
  · simp [he]

/-! ## Conservation of TaxIDs across a round and across the loop -/

theorem roundStep_count (env : Env) (mr : Nat) (t : JValue) :
    ∀ pending : List (JValue × Nat),
    ((roundStep env mr pending).recs.countP (recFor t) +
     (roundStep env mr pending).fails.countP (fun p => p.1 == t)) =
    pending.countP (fun p => p.1 == t) := by
  intro pending
  induction pending with
  | nil => rfl
  | cons q rest ih =>
    obtain ⟨t2, r⟩ := q
    by_cases hr : r < mr
    · cases hf : fetch_taxonomy_data (env t2 r) with
      | none =>
        rw [roundStep_cons_fail_none hr hf]
        simp only [List.countP_cons]
        omega
      | some info =>
        cases he : info.isEmpty with
        | true =>
          rw [roundStep_cons_fail_empty hr hf he]
          simp only [List.countP_cons]
          omega
        | false =>
          rw [roundStep_cons_ok hr hf he]
          simp only [List.countP_cons, recFor_resolved t t2 hf]
          omega
    · rw [roundStep_cons_exhaust hr]
      simp only [List.countP_cons, recFor_exhausted t t2]
      omega

theorem processRounds_count (env : Env) (mr : Nat) (t : JValue) :
    ∀ (fuel : Nat) (pending : List (JValue × Nat)),
    (∀ p ∈ pending, p.2 ≤ mr ∧ mr + 1 ≤ fuel + p.2) →
    (processRounds env mr fuel pending).1.countP (recFor t) =
      pending.countP (fun p => p.1 == t) := by
  intro fuel
  induction fuel with
  | zero =>
    intro pending hinv
    have hnil : pending = [] := by
      cases pending with
      | nil => rfl
      | cons p rest =>
        have := hinv p (by simp)
        omega
    subst hnil
    rfl
  | succ fuel ih =>
    intro pending hinv
    by_cases hp : pending.isEmpty
    · rw [List.isEmpty_iff] at hp
      subst hp
      rfl
    · unfold processRounds
      rw [if_neg hp]
      dsimp only
      rw [List.countP_append]
      have hrec := ih (roundStep env mr pending).fails ?_
      · rw [hrec]
        have := roundStep_count env mr t pending
        omega
      · intro p hpm
        obtain ⟨r, hm, he, hlt⟩ := roundStep_fails_shape hpm
        have := hinv (p.1, r) hm
        omega

/-! ## First-occurrence deduplication -/

theorem uniqueFirstAux_mem : ∀ {l : List JValue} {seen : List JValue} {x : JValue},
    x ∈ uniqueFirstAux seen l ↔ x ∈ l ∧ x ∉ seen := by
  intro l
  induction l with
  | nil => intro seen x; simp [uniqueFirstAux]
  | cons y ys ih =>
    intro seen x
    unfold uniqueFirstAux
    by_cases hy : y ∈ seen
    · rw [if_pos hy, ih]
      constructor
      · intro ⟨h1, h2⟩; exact ⟨List.mem_cons_of_mem _ h1, h2⟩
      · intro ⟨h1, h2⟩
        rcases List.mem_cons.mp h1 with hc | hc
        · subst hc; exact absurd hy h2
        · exact ⟨hc, h2⟩
    · rw [if_neg hy]
      constructor
      · intro h1
        rcases List.mem_cons.mp h1 with hc | hc
        · subst hc; exact ⟨by simp, hy⟩
        · have := ih.mp hc
          simp only [List.mem_cons, not_or] at this
          exact ⟨List.mem_cons_of_mem _ this.1, this.2.2⟩
      · intro ⟨h1, h2⟩
        rcases List.mem_cons.mp h1 with hc | hc
        · subst hc; simp
        · by_cases hxy : x = y
          · subst hxy; simp
          · exact List.mem_cons_of_mem _ (ih.mpr ⟨hc, by simp [hxy, h2]⟩)

theorem uniqueFirst_mem {l : List JValue} {x : JValue} : x ∈ uniqueFirst l ↔ x ∈ l := by
  unfold uniqueFirst
  rw [uniqueFirstAux_mem]
  simp

theorem uniqueFirstAux_nodup : ∀ {l : List JValue} {seen : List JValue},
    (uniqueFirstAux seen l).Nodup := by
  intro l
  induction l with
  | nil => intro seen; simp [uniqueFirstAux]
  | cons y ys ih =>
    intro seen
    unfold uniqueFirstAux
    by_cases hy : y ∈ seen
    · rw [if_pos hy]; exact ih
    · rw [if_neg hy]
      refine List.nodup_cons.mpr ⟨?_, ih⟩
      intro hc
      exact (uniqueFirstAux_mem.mp hc).2 (by simp)

theorem uniqueFirst_nodup {l : List JValue} : (uniqueFirst l).Nodup :=
  uniqueFirstAux_nodup

theorem initState_retries {taxids : List JValue} {p : JValue × Nat}
    (h : p ∈ initState taxids) : p.2 = 0 := by
  unfold initState at h
  obtain ⟨t, hm, he⟩ := List.mem_map.mp h
  rw [← he]

theorem initState_keys (taxids : List JValue) :
    (initState taxids).map Prod.fst = uniqueFirst taxids := by
  unfold initState
  rw [List.map_map]
  exact List.map_id _

theorem initState_mem {taxids : List JValue} {t : JValue} :
    (t, 0) ∈ initState taxids ↔ t ∈ taxids := by
  unfold initState
  constructor
  · intro h
    obtain ⟨x, hm, he⟩ := List.mem_map.mp h
    have : x = t := congrArg Prod.fst he
    subst this
    exact uniqueFirst_mem.mp hm
  · intro h
    exact List.mem_map.mpr ⟨t, uniqueFirst_mem.mpr h, rfl⟩

/-! ## Retry counters across rounds -/

theorem pendingIter_retries (env : Env) (mr : Nat) (taxids : List JValue) :
    ∀ (n : Nat) (p : JValue × Nat), p ∈ pendingIter env mr (initState taxids) n →
    p.2 = n ∧ n ≤ mr := by
  intro n
  induction n with
  | zero =>
    intro p hp
    exact ⟨initState_retries hp, Nat.zero_le mr⟩
  | succ n ih =>
    intro p hp
    unfold pendingIter at hp
    obtain ⟨r, hm, he, hlt⟩ := roundStep_fails_shape hp
    have h2 := ih (p.1, r) hm
    exact ⟨by omega, by omega⟩

/-! ## Claim C5: the retry loop terminates -/

/-- Claim C5: for every environment, retry bound and identifier set,
each pending identifier's retry budget strictly shrinks on every failed
round (its counter is one higher, see roundStep_fails_shape), so the
pending dict of process_taxids is provably empty after maxRetries + 1
rounds, and the loop stops as soon as the pending dict is empty. -/
theorem C5_loop_terminates (env : Env) (mr : Nat) (taxids : List JValue) :
    pendingIter env mr (initState taxids) (mr + 1) = [] ∧
    (∀ fuel, processRounds env mr fuel [] = ([], [])) := by
  constructor
  · cases hpe : pendingIter env mr (initState taxids) (mr + 1) with
    | nil => rfl
    | cons p rest =>
      have := pendingIter_retries env mr taxids (mr + 1) p (by rw [hpe]; simp)
      omega
  · intro fuel
    cases fuel with
    | zero => rfl
    | succ f => rfl

/-! ## Claim C9: evolution of the pending dict -/

/-- Claim C9, amended: across rounds the pending dict never gains
identifiers (its key list is a sublist of the previous one, so its
count never increases), each surviving identifier carries an attempt
counter exactly one higher than before (a strictly smaller remaining
budget), and the dict empties after at most maxRetries + 1 rounds; the
identifier count itself is not strictly decreasing between consecutive
nonempty rounds. -/
theorem C9_pending_evolution (env : Env) (mr : Nat) (pending : List (JValue × Nat))
    (taxids : List JValue) :
    ((roundStep env mr pending).fails.map Prod.fst).Sublist (pending.map Prod.fst) ∧
    (roundStep env mr pending).fails.length ≤ pending.length ∧
    (∀ p ∈ (roundStep env mr pending).fails, ∃ r, (p.1, r) ∈ pending ∧ p.2 = r + 1 ∧ r < mr) ∧
    pendingIter env mr (initState taxids) (mr + 1) = [] := by
  refine ⟨roundStep_fails_keys_sublist pending, ?_, ?_, ?_⟩
  · have := (@roundStep_fails_keys_sublist env mr pending).length_le
    simpa using this
  · intro p hp
    exact roundStep_fails_shape hp
  · cases hpe : pendingIter env mr (initState taxids) (mr + 1) with
    | nil => rfl
    | cons p rest =>
      have := pendingIter_retries env mr taxids (mr + 1) p (by rw [hpe]; simp)
      omega

/-- Witness for C9 at a concrete always-failing run: the sole pending
identifier survives round one with its counter raised from 0 to 1. -/
theorem C9_pending_evolution_witness :
    ∃ r, ((.num 0 : JValue), r) ∈ initState [(.num 0 : JValue)] ∧ 1 = r + 1 ∧ r < 3 :=
  (C9_pending_evolution envFail 3 (initState [(.num 0 : JValue)]) []).2.2.1
    ((.num 0 : JValue), 1) (by decide)

/-- Claim C9, counterexample to the claim as stated: with one
always-failing identifier and max_retries 3 the pending dict holds the
same number of identifiers after round one as before it yet is not
empty, so its count is not strictly decreasing across rounds. -/
theorem C9_count_not_strictly_decreasing :
    (roundStep envFail 3 (initState [(.num 0 : JValue)])).fails.length =
      (initState [(.num 0 : JValue)]).length ∧
    (roundStep envFail 3 (initState [(.num 0 : JValue)])).fails ≠ [] := by
  refine ⟨by decide, by decide⟩

/-! ## Claim C3: exactly one record per distinct identifier -/

theorem process_taxids_count (env : Env) (mr : Nat) (taxids : List JValue) (t : JValue) :
    (process_taxids env mr taxids).1.countP (recFor t) = if t ∈ taxids then 1 else 0 := by
  unfold process_taxids
  rw [processRounds_count env mr t (mr + 1) (initState taxids)
    (fun p hp => by have := initState_retries hp; omega)]
  unfold initState
  rw [List.countP_map]
  have hcnt : (uniqueFirst taxids).countP ((fun p => p.1 == t) ∘ (fun x => (x, 0))) =
      (uniqueFirst taxids).count t := by
    rfl
  rw [hcnt]
  by_cases hm : t ∈ taxids
  · rw [if_pos hm]
    exact List.count_eq_one_of_mem uniqueFirst_nodup (uniqueFirst_mem.mpr hm)
  · rw [if_neg hm]
    rw [List.count_eq_zero]
    exact fun hc => hm (uniqueFirst_mem.mp hc)

/-- Claim C3: for every environment, every retry bound and every
identifier list, process_taxids produces exactly one record whose
TaxID field is t for every t among the identifiers, and none for any
other value: no identifier is omitted, none is duplicated.  The
embedding is a total function, so no exception propagates regardless
of how many fetches fail. -/
theorem C3_one_record_per_taxid (env : Env) (mr : Nat) (taxids : List JValue) (t : JValue) :
    (process_taxids env mr taxids).1.countP (recFor t) = if t ∈ taxids then 1 else 0 :=
  process_taxids_count env mr taxids t

/-! ## Per-identifier projection of a round -/

theorem filter_key_nil_iff {t : JValue} {l : List (JValue × Nat)} :
    l.filter (fun p => p.1 == t) = [] ↔ t ∉ l.map Prod.fst := by
  rw [List.filter_eq_nil_iff]
  constructor
  · intro h hc
    obtain ⟨p, hp, he⟩ := List.mem_map.mp hc
    exact h p hp (by simp [he])
  · intro h p hp hc
    exact h (List.mem_map.mpr ⟨p, hp, by simpa using hc⟩)

theorem resolves_true {env : Env} {t : JValue} {n : Nat} (h : resolves env t n = true) :
    ∃ info, fetch_taxonomy_data (env t n) = some info ∧ info.isEmpty = false := by
  unfold resolves at h
  cases hf : fetch_taxonomy_data (env t n) with
  | none => rw [hf] at h; simp at h
  | some info =>
    rw [hf] at h
    dsimp only at h
    exact ⟨info, rfl, by simpa using h⟩

theorem roundStep_filter_nomem {env : Env} {mr : Nat} {t : JValue} :
    ∀ {pending : List (JValue × Nat)}, t ∉ pending.map Prod.fst →
    (roundStep env mr pending).recs.filter (recFor t) = [] ∧
    (roundStep env mr pending).fails.filter (fun p => p.1 == t) = [] ∧
    (roundStep env mr pending).calls.filter (fun p => p.1 == t) = [] := by
  intro pending
  induction pending with
  | nil => intro _; exact ⟨rfl, rfl, rfl⟩
  | cons q rest ih =>
    intro h
    obtain ⟨t2, r⟩ := q
    simp only [List.map_cons, List.mem_cons, not_or] at h
    obtain ⟨hne, hrest⟩ := h
    have iht := ih hrest
    have ht2 : (t2 == t) = false := beq_false_of_ne (fun he => hne he.symm)
    by_cases hr : r < mr
    · cases hf : fetch_taxonomy_data (env t2 r) with
      | none =>
        rw [roundStep_cons_fail_none hr hf]
        exact ⟨iht.1, by simpa [List.filter_cons, ht2] using iht.2.1,
               by simpa [List.filter_cons, ht2] using iht.2.2⟩
      | some info =>
        cases he : info.isEmpty with
        | true =>
          rw [roundStep_cons_fail_empty hr hf he]
          exact ⟨iht.1, by simpa [List.filter_cons, ht2] using iht.2.1,
                 by simpa [List.filter_cons, ht2] using iht.2.2⟩
        | false =>
          rw [roundStep_cons_ok hr hf he]
          refine ⟨?_, iht.2.1, by simpa [List.filter_cons, ht2] using iht.2.2⟩
          have hrec : recFor t (info ++ [("TaxID", t2)]) = false := by
            rw [recFor_resolved t t2 hf]; exact ht2
          simpa [List.filter_cons, hrec] using iht.1
    · rw [roundStep_cons_exhaust hr]
      refine ⟨?_, iht.2.1, iht.2.2⟩
      have hrec : recFor t (exhaustedRecord t2) = false := by
        rw [recFor_exhausted t t2]; exact ht2
      simpa [List.filter_cons, hrec] using iht.1

theorem roundStep_filter_mem {env : Env} {mr : Nat} {t : JValue} {n : Nat} :
    ∀ {pending : List (JValue × Nat)}, (pending.map Prod.fst).Nodup →
    (t, n) ∈ pending →
    (roundStep env mr pending).recs.filter (recFor t) = (roundStep env mr [(t, n)]).recs ∧
    (roundStep env mr pending).fails.filter (fun p => p.1 == t) =
      (roundStep env mr [(t, n)]).fails ∧
    (roundStep env mr pending).calls.filter (fun p => p.1 == t) =
      (roundStep env mr [(t, n)]).calls := by
  intro pending
  induction pending with
  | nil => intro _ hm; exact absurd hm (by simp)
  | cons q rest ih =>
    intro hnd hm
    obtain ⟨t2, r⟩ := q
    simp only [List.map_cons, List.nodup_cons] at hnd
    rcases List.mem_cons.mp hm with hc | hc
    · obtain ⟨h1, h2⟩ := Prod.mk.injEq .. |>.mp hc
      subst h1
      subst h2
      have hrest := @roundStep_filter_nomem env mr t _ hnd.1
      by_cases hr : n < mr
      · cases hf : fetch_taxonomy_data (env t n) with
        | none =>
          rw [roundStep_cons_fail_none hr hf, roundStep_cons_fail_none hr hf, roundStep_nil]
          exact ⟨hrest.1, by simpa [List.filter_cons] using hrest.2.1,
                 by simpa [List.filter_cons] using hrest.2.2⟩
        | some info =>
          cases he : info.isEmpty with
          | true =>
            rw [roundStep_cons_fail_empty hr hf he, roundStep_cons_fail_empty hr hf he,
              roundStep_nil]
            exact ⟨hrest.1, by simpa [List.filter_cons] using hrest.2.1,
                   by simpa [List.filter_cons] using hrest.2.2⟩
          | false =>
            rw [roundStep_cons_ok hr hf he, roundStep_cons_ok hr hf he, roundStep_nil]
            have hrec : recFor t (info ++ [("TaxID", t)]) = true := by
              rw [recFor_resolved t t hf]; simp
            exact ⟨by simpa [List.filter_cons, hrec] using hrest.1, hrest.2.1,
                   by simpa [List.filter_cons] using hrest.2.2⟩
      · rw [roundStep_cons_exhaust hr, roundStep_cons_exhaust hr, roundStep_nil]
        have hrec : recFor t (exhaustedRecord t) = true := by
          rw [recFor_exhausted t t]; simp
        exact ⟨by simpa [List.filter_cons, hrec] using hrest.1, hrest.2.1, hrest.2.2⟩
    · have htm : t ∈ rest.map Prod.fst := List.mem_map.mpr ⟨(t, n), hc, rfl⟩
      have hne : t2 ≠ t := fun he => hnd.1 (he ▸ htm)
      have ht2 : (t2 == t) = false := beq_false_of_ne hne
      have iht := ih hnd.2 hc
      by_cases hr : r < mr
      · cases hf : fetch_taxonomy_data (env t2 r) with
        | none =>
          rw [roundStep_cons_fail_none hr hf]
          exact ⟨iht.1, by simpa [List.filter_cons, ht2] using iht.2.1,
                 by simpa [List.filter_cons, ht2] using iht.2.2⟩
        | some info =>
          cases he : info.isEmpty with
          | true =>
            rw [roundStep_cons_fail_empty hr hf he]
            exact ⟨iht.1, by simpa [List.filter_cons, ht2] using iht.2.1,
                   by simpa [List.filter_cons, ht2] using iht.2.2⟩
          | false =>
            rw [roundStep_cons_ok hr hf he]
            have hrec : recFor t (info ++ [("TaxID", t2)]) = false := by
              rw [recFor_resolved t t2 hf]; exact ht2
            exact ⟨by simpa [List.filter_cons, hrec] using iht.1, iht.2.1,
                   by simpa [List.filter_cons, ht2] using iht.2.2⟩
      · rw [roundStep_cons_exhaust hr]
        have hrec : recFor t (exhaustedRecord t2) = false := by
          rw [recFor_exhausted t t2]; exact ht2
        exact ⟨by simpa [List.filter_cons, hrec] using iht.1, iht.2.1, iht.2.2⟩

/-! ## Per-identifier projection of the whole loop -/

theorem processRounds_nilPending (env : Env) (mr : Nat) :
    ∀ fuel, processRounds env mr fuel [] = ([], []) := by
  intro fuel
  cases fuel with
  | zero => rfl
  | succ f => rfl

theorem processRounds_succ {env : Env} {mr fuel : Nat} {pending : List (JValue × Nat)}
    (h : pending.isEmpty = false) :
    processRounds env mr (fuel + 1) pending =
      ((roundStep env mr pending).recs ++
        (processRounds env mr fuel (roundStep env mr pending).fails).1,
       (roundStep env mr pending).calls ++
        (processRounds env mr fuel (roundStep env mr pending).fails).2) := by
  conv_lhs => unfold processRounds
  rw [if_neg (by simp [h])]

theorem processRounds_filter_nomem {env : Env} {mr : Nat} {t : JValue} :
    ∀ (fuel : Nat) {pending : List (JValue × Nat)}, t ∉ pending.map Prod.fst →
    (processRounds env mr fuel pending).1.filter (recFor t) = [] ∧
    (processRounds env mr fuel pending).2.filter (fun p => p.1 == t) = [] := by
  intro fuel
  induction fuel with
  | zero => intro pending _; exact ⟨rfl, rfl⟩
  | succ fuel ih =>
    intro pending h
    cases hpe : pending.isEmpty with
    | true =>
      rw [List.isEmpty_iff] at hpe
      subst hpe
      exact ⟨rfl, rfl⟩
    | false =>
      rw [processRounds_succ hpe]
      have hround := @roundStep_filter_nomem env mr t _ h
      have hfails : t ∉ (roundStep env mr pending).fails.map Prod.fst := by
        intro hc
        exact h ((roundStep_fails_keys_sublist pending).mem hc)
      have iht := ih hfails
      dsimp only
      rw [List.filter_append, List.filter_append, hround.1, hround.2.2, iht.1, iht.2]
      exact ⟨rfl, rfl⟩

theorem processRounds_filter {env : Env} {mr : Nat} {t : JValue} :
    ∀ (fuel : Nat) {pending : List (JValue × Nat)} {n : Nat},
    (pending.map Prod.fst).Nodup → (t, n) ∈ pending →
    (processRounds env mr fuel pending).1.filter (recFor t) =
      (processRounds env mr fuel [(t, n)]).1 ∧
    (processRounds env mr fuel pending).2.filter (fun p => p.1 == t) =
      (processRounds env mr fuel [(t, n)]).2 := by
  intro fuel
  induction fuel with
  | zero => intro pending n _ _; exact ⟨rfl, rfl⟩
  | succ fuel ih =>
    intro pending n hnd hm
    have hpe : pending.isEmpty = false := by
      cases pending with
      | nil => exact absurd hm (by simp)
      | cons q rest => rfl
    rw [processRounds_succ hpe, @processRounds_succ env mr fuel [(t, n)] rfl]
    have hround := @roundStep_filter_mem env mr t n _ hnd hm
    have hndf : ((roundStep env mr pending).fails.map Prod.fst).Nodup :=
      hnd.sublist (roundStep_fails_keys_sublist pending)
    dsimp only
    rw [List.filter_append, List.filter_append, hround.1, hround.2.2]
    by_cases hr : n < mr
    · by_cases hres : resolves env t n = true
      · obtain ⟨info, hf, he⟩ := resolves_true hres
        have hsingle := @roundStep_cons_ok env mr n t info [] hr hf he
        rw [roundStep_nil] at hsingle
        have hnof : t ∉ (roundStep env mr pending).fails.map Prod.fst := by
          rw [← filter_key_nil_iff]
          rw [hround.2.1, hsingle]
        have hnom := @processRounds_filter_nomem env mr t fuel _ hnof
        rw [hnom.1, hnom.2, hsingle]
        rw [processRounds_nilPending env mr fuel]
        exact ⟨rfl, rfl⟩
      · have hres2 : resolves env t n = false := by
          cases hres3 : resolves env t n with
          | true => exact absurd hres3 hres
          | false => rfl
        have hsingle := @roundStep_cons_not_resolves env mr n t [] hr hres2
        rw [roundStep_nil] at hsingle
        have hmf : (t, n + 1) ∈ (roundStep env mr pending).fails := by
          have : (t, n + 1) ∈ (roundStep env mr pending).fails.filter
              (fun p => p.1 == t) := by
            rw [hround.2.1, hsingle]
            simp
          exact List.mem_of_mem_filter this
        have iht := ih hndf hmf
        rw [hsingle]
        rw [iht.1, iht.2]
        exact ⟨rfl, rfl⟩
    · have hsingle := @roundStep_cons_exhaust env mr n t [] hr
      rw [roundStep_nil] at hsingle
      have hnof : t ∉ (roundStep env mr pending).fails.map Prod.fst := by
        rw [← filter_key_nil_iff]
        rw [hround.2.1, hsingle]
      have hnom := @processRounds_filter_nomem env mr t fuel _ hnof
      rw [hnom.1, hnom.2, hsingle]
      rw [processRounds_nilPending env mr fuel]
      exact ⟨rfl, rfl⟩

/-! ## The trajectory of a single pending identifier -/

theorem solo_exhaust {env : Env} {mr : Nat} {t : JValue} :
    ∀ (fuel n : Nat), n ≤ mr → mr + 1 ≤ fuel + n →
    (∀ j, n ≤ j → j < mr → resolves env t j = false) →
    processRounds env mr fuel [(t, n)] =
      ([exhaustedRecord t], (List.range' n (mr - n)).map (fun j => (t, j))) := by
  intro fuel
  induction fuel with
  | zero => intro n hn hfuel _; exfalso; omega
  | succ fuel ih =>
    intro n hn hfuel hfail
    rw [@processRounds_succ env mr fuel [(t, n)] rfl]
    by_cases hr : n < mr
    · have hres := hfail n (le_refl n) hr
      have hsingle := @roundStep_cons_not_resolves env mr n t [] hr hres
      rw [roundStep_nil] at hsingle
      rw [hsingle]
      dsimp only
      rw [ih (n + 1) (by omega) (by omega) (fun j hj hjm => hfail j (by omega) hjm)]
      rw [show mr - n = (mr - (n + 1)) + 1 by omega, List.range'_succ]
      rfl
    · have hsingle := @roundStep_cons_exhaust env mr n t [] hr
      rw [roundStep_nil] at hsingle
      rw [hsingle]
      dsimp only
      rw [processRounds_nilPending env mr fuel]
      rw [show mr - n = 0 by omega]
      rfl

theorem solo_success {env : Env} {mr : Nat} {t : JValue} {a : Nat} {info : Row}
    (ha : a < mr) (hf : fetch_taxonomy_data (env t a) = some info)
    (he : info.isEmpty = false) :
    ∀ (fuel n : Nat), n ≤ a → a + 1 ≤ fuel + n →
    (∀ j, n ≤ j → j < a → resolves env t j = false) →
    processRounds env mr fuel [(t, n)] =
      ([info ++ [("TaxID", t)]], (List.range' n (a + 1 - n)).map (fun j => (t, j))) := by
  intro fuel
  induction fuel with
  | zero => intro n hn hfuel _; exfalso; omega
  | succ fuel ih =>
    intro n hn hfuel hfail
    rw [@processRounds_succ env mr fuel [(t, n)] rfl]
    by_cases hna : n = a
    · subst hna
      have hsingle := @roundStep_cons_ok env mr n t info [] ha hf he
      rw [roundStep_nil] at hsingle
      rw [hsingle]
      dsimp only
      rw [processRounds_nilPending env mr fuel]
      rw [show n + 1 - n = 1 by omega]
      rfl
    · have hlt : n < a := by omega
      have hres := hfail n (le_refl n) hlt
      have hsingle := @roundStep_cons_not_resolves env mr n t [] (by omega) hres
      rw [roundStep_nil] at hsingle
      rw [hsingle]
      dsimp only
      rw [ih (n + 1) (by omega) (by omega) (fun j hj hjm => hfail j (by omega) hjm)]
      rw [show a + 1 - n = (a + 1 - (n + 1)) + 1 by omega, List.range'_succ]
      rfl

/-! ## Claim C2: the record of an identifier whose fetch always fails -/

/-- Claim C2, amended: for every identifier whose fetch fails on every
attempt, once retries are exhausted the orchestrator produces for that
identifier exactly one record, the literal fallback record: its lineage
fields are the fourteen fields kingdom through species (the source
fallback omits the two superkingdom fields), every one holding the
string None, plus the TaxID field. -/
theorem C2_exhausted_all_none (env : Env) (mr : Nat) (taxids : List JValue) (t : JValue)
    (hmem : t ∈ taxids) (hfail : ∀ j, j < mr → resolves env t j = false) :
    (process_taxids env mr taxids).1.filter (recFor t) = [exhaustedRecord t] ∧
    (exhaustedRecord t).map Prod.fst =
      ["kingdom_id", "kingdom_name", "phylum_id", "phylum_name", "class_id", "class_name",
       "order_id", "order_name", "family_id", "family_name", "genus_id", "genus_name",
       "species_id", "species_name", "TaxID"] ∧
    (∀ p ∈ exhaustedBase, p.2 = .str "None") := by
  refine ⟨?_, by rfl, by decide⟩
  unfold process_taxids
  have hnd : ((initState taxids).map Prod.fst).Nodup := by
    rw [initState_keys]
    exact uniqueFirst_nodup
  have hmem0 : (t, 0) ∈ initState taxids := initState_mem.mpr hmem
  have hfil := @processRounds_filter env mr t (mr + 1) _ 0 hnd hmem0
  rw [hfil.1]
  rw [solo_exhaust (mr + 1) 0 (by omega) (by omega) (fun j _ hjm => hfail j hjm)]

/-- Witness for C2 in a concrete always-failing run. -/
theorem C2_exhausted_all_none_witness :
    (process_taxids envFail 3 [(.num 0 : JValue)]).1.filter (recFor (.num 0)) =
      [exhaustedRecord (.num 0)] :=
  (C2_exhausted_all_none envFail 3 [(.num 0 : JValue)] (.num 0)
    (by decide) (by decide)).1

/-- Claim C2, counterexample to the claim as stated: the record of an
always-failing identifier has no superkingdom fields at all (so it has
fourteen populated lineage fields, not sixteen) and its fields hold the
string None, not unknown. -/
theorem C2_record_not_sixteen_unknown :
    (process_taxids envFail 0 [(.num 0 : JValue)]).1 = [exhaustedRecord (.num 0)] ∧
    (exhaustedRecord (.num 0)).lookup "superkingdom_id" = none ∧
    (exhaustedRecord (.num 0)).lookup "superkingdom_name" = none ∧
    (exhaustedRecord (.num 0)).lookup "kingdom_id" = some (.str "None") := by
  refine ⟨by decide, by decide, by decide, by decide⟩

/-! ## Claim C6: a successful attempt resolves the identifier for good -/

/-- Claim C6: for every identifier whose fetch first succeeds on the
attempt with 0-based index a (attempt number a + 1 <= maxRetries), the
orchestrator emits exactly one record for it, namely the record of that
successful attempt (with the TaxID field appended), and the call log
for that identifier is exactly the attempts 0..a: no further fetch is
issued for it afterwards. -/
theorem C6_success_stops_fetching (env : Env) (mr : Nat) (taxids : List JValue)
    (t : JValue) (a : Nat) (info : Row)
    (hmem : t ∈ taxids) (ha : a < mr)
    (hfail : ∀ j, j < a → resolves env t j = false)
    (hf : fetch_taxonomy_data (env t a) = some info) (he : info.isEmpty = false) :
    (process_taxids env mr taxids).1.filter (recFor t) = [info ++ [("TaxID", t)]] ∧
    (process_taxids env mr taxids).2.filter (fun p => p.1 == t) =
      (List.range (a + 1)).map (fun j => (t, j)) := by
  unfold process_taxids
  have hnd : ((initState taxids).map Prod.fst).Nodup := by
    rw [initState_keys]
    exact uniqueFirst_nodup
  have hmem0 : (t, 0) ∈ initState taxids := initState_mem.mpr hmem
  have hfil := @processRounds_filter env mr t (mr + 1) _ 0 hnd hmem0
  constructor
  · rw [hfil.1]
    rw [solo_success ha hf he (mr + 1) 0 (by omega) (by omega)
      (fun j _ hjm => hfail j hjm)]
  · rw [hfil.2]
    rw [solo_success ha hf he (mr + 1) 0 (by omega) (by omega)
      (fun j _ hjm => hfail j hjm)]
    rw [List.range_eq_range']
    rfl

/-- Witness for C6: a first-attempt success in the all-good
environment. -/
theorem C6_success_stops_fetching_witness :
    (process_taxids envGood 3 [(.num 7 : JValue)]).1.filter (recFor (.num 7)) =
      [goodInfo ++ [("TaxID", .num 7)]] ∧
    (process_taxids envGood 3 [(.num 7 : JValue)]).2.filter
      (fun p => p.1 == (.num 7 : JValue)) =
      (List.range 1).map (fun j => ((.num 7 : JValue), j)) :=
  C6_success_stops_fetching envGood 3 [(.num 7 : JValue)] (.num 7) 0 goodInfo
    (by decide) (by decide) (fun j hj => absurd hj (by omega)) (by decide) (by decide)

/-! ## Lookup and fill helpers for the tabular stage -/

theorem lookup_eq_none_iff {k : String} {l : Row} :
    l.lookup k = none ↔ k ∉ l.map Prod.fst := by
  induction l with
  | nil => simp [List.lookup]
  | cons p rest ih =>
    obtain ⟨k1, v1⟩ := p
    cases hk : (k == k1) with
    | true =>
      have : k = k1 := by simpa using hk
      subst this
      simp [List.lookup_cons, hk]
    | false =>
      have hne : k ≠ k1 := by simpa using hk
      simp [List.lookup_cons, hk, hne, ih]

theorem fillRow_added_mem {cols : List String} {row : Row} {q : String × JValue}
    (h : q ∈ cols.filterMap (fun c =>
      match row.lookup c with
      | none => some (c, JValue.str "None")
      | some _ => none)) : q.1 ∈ cols ∧ q.2 = .str "None" ∧ row.lookup q.1 = none := by
  obtain ⟨c, hc, he⟩ := List.mem_filterMap.mp h
  cases hl : row.lookup c with
  | none =>
    rw [hl] at he
    injection he with he
    subst he
    exact ⟨hc, rfl, hl⟩
  | some v => rw [hl] at he; exact absurd he (by simp)

theorem fillRow_lookup_orig {cols : List String} {row : Row} {c : String}
    (h : c ∉ cols) : (fillRow cols row).lookup c = row.lookup c := by
  unfold fillRow
  cases hl : row.lookup c with
  | some v => exact lookup_append_left hl
  | none =>
    rw [lookup_append_right (lookup_eq_none_iff.mp hl)]
    rw [lookup_eq_none_iff]
    intro hc
    obtain ⟨q, hq, he⟩ := List.mem_map.mp hc
    have hqm := fillRow_added_mem hq
    rw [he] at hqm
    exact h hqm.1

theorem fillRow_lookup_filled {cols : List String} {row : Row} {c : String}
    (hmem : c ∈ cols) (hn : row.lookup c = none) :
    (fillRow cols row).lookup c = some (.str "None") := by
  unfold fillRow
  rw [lookup_append_right (lookup_eq_none_iff.mp hn)]
  induction cols with
  | nil => exact absurd hmem (by simp)
  | cons d rest ih =>
    rcases List.mem_cons.mp hmem with hc | hc
    · subst hc
      simp only [List.filterMap_cons, hn]
      simp [List.lookup_cons]
    · by_cases hd : d = c
      · subst hd
        simp only [List.filterMap_cons, hn]
        simp [List.lookup_cons]
      · simp only [List.filterMap_cons]
        cases hl : row.lookup d with
        | none =>
          have hb : (c == d) = false := beq_false_of_ne (fun he => hd he.symm)
          simpa [List.lookup_cons, hb] using ih hc
        | some v => exact ih hc

/-! ## The left merge on TaxID -/

theorem mergeRow_nan {right : DataFrame} {key : String} {lrow : Row}
    (hl : lrow.lookup key = none) : mergeRow right key lrow = [lrow] := by
  unfold mergeRow
  have hms : right.rows.filter (fun rrow =>
      match lrow.lookup key, rrow.lookup key with
      | some a, some b => a == b
      | _, _ => false) = [] := by
    apply List.filter_eq_nil_iff.mpr
    intro rrow _
    simp only [hl]
    cases rrow.lookup key <;> simp
  rw [hms]
  rfl

theorem mergeRow_of_unique {right : DataFrame} {t : JValue} {lrow rec : Row}
    (hl : lrow.lookup "TaxID" = some t)
    (hfil : right.rows.filter (recFor t) = [rec]) :
    mergeRow right "TaxID" lrow =
      [lrow ++ (right.cols.filter (fun c => c ≠ "TaxID")).filterMap
        (fun c => (rec.lookup c).map (fun v => (c, v)))] := by
  unfold mergeRow
  have hms : right.rows.filter (fun rrow =>
      match lrow.lookup "TaxID", rrow.lookup "TaxID" with
      | some a, some b => a == b
      | _, _ => false) = [rec] := by
    rw [← hfil]
    apply List.filter_congr
    intro rrow _
    simp only [hl]
    unfold recFor
    cases hr : rrow.lookup "TaxID" with
    | none => simp
    | some b =>
      by_cases hb : b = t
      · subst hb; simp
      · have h1 : (t == b) = false := beq_false_of_ne (fun he => hb he.symm)
        have h2 : ((some b : Option JValue) == some t) = false := by
          rw [beq_eq_false_iff_ne]
          simp [hb]
        simp [h1, h2]
  rw [hms]
  rfl

/-! ## Provenance of the fetch calls issued by the whole loop -/

theorem processRounds_calls_mem {env : Env} {mr : Nat} :
    ∀ (fuel : Nat) {pending : List (JValue × Nat)} {p : JValue × Nat},
    p ∈ (processRounds env mr fuel pending).2 → p.1 ∈ pending.map Prod.fst := by
  intro fuel
  induction fuel with
  | zero => intro pending p hp; exact absurd hp (by simp [processRounds])
  | succ fuel ih =>
    intro pending p hp
    cases hpe : pending.isEmpty with
    | true =>
      rw [List.isEmpty_iff] at hpe
      subst hpe
      rw [processRounds_nilPending] at hp
      exact absurd hp (by simp)
    | false =>
      rw [processRounds_succ hpe] at hp
      dsimp only at hp
      rcases List.mem_append.mp hp with hc | hc
      · exact roundStep_calls_keys hc
      · exact (roundStep_fails_keys_sublist pending).mem (ih hc)

/-! ## Deduplication facts for the duplicate-identifier scenario -/

theorem uniqueFirstAux_subset_nil {l seen : List JValue} (h : ∀ x ∈ l, x ∈ seen) :
    uniqueFirstAux seen l = [] := by
  induction l with
  | nil => rfl
  | cons y ys ih =>
    unfold uniqueFirstAux
    rw [if_pos (h y (by simp))]
    exact ih (fun x hx => h x (List.mem_cons_of_mem _ hx))

theorem uniqueFirst_two {a b : JValue} {rest : List JValue} (hab : a ≠ b)
    (hrest : ∀ x ∈ rest, x = a ∨ x = b) :
    uniqueFirst (a :: b :: rest) = [a, b] := by
  unfold uniqueFirst uniqueFirstAux
  rw [if_neg (by simp)]
  conv_lhs => unfold uniqueFirstAux
  rw [if_neg (fun hc => by
    rcases List.mem_cons.mp hc with hc2 | hc2
    · exact hab hc2.symm
    · exact absurd hc2 (by simp))]
  rw [uniqueFirstAux_subset_nil (fun x hx => by rcases hrest x hx with hc | hc <;> simp [hc])]

/-! ## Inversion of the main pipeline -/

theorem mainRun_some_inv {env : Env} {df out : DataFrame} {calls : List (JValue × Nat)}
    (h : mainRun env df = some (out, calls)) :
    out = fillNoneCols
        (mergeLeft df (recordsToFrame (process_taxids env 3 (uniqueTaxids df)).1) "TaxID")
        ((mergeLeft df (recordsToFrame (process_taxids env 3 (uniqueTaxids df)).1)
          "TaxID").cols.filter (fun c => !(df.cols.contains c))) ∧
    calls = (process_taxids env 3 (uniqueTaxids df)).2 := by
  unfold mainRun at h
  by_cases h1 : "TaxID" ∉ df.cols
  · rw [if_pos h1] at h
    exact absurd h (by simp)
  · rw [if_neg h1] at h
    dsimp only at h
    by_cases h2 : (uniqueTaxids df).isEmpty
    · rw [if_pos h2] at h
      exact absurd h (by simp)
    · rw [if_neg h2] at h
      injection h with h3
      exact ⟨(congrArg Prod.fst h3).symm, (congrArg Prod.snd h3).symm⟩

/-! ## Claim C7: the lineage-column schema of the output table -/

/-- Claim C7: the output column schema depends on which records were
produced.  At a one-row input table whose identifier always fails with
a nonzero exit, the output table gains only fourteen lineage columns,
kingdom_id through species_name: the superkingdom pair is absent,
because the exhausted-retries fallback dict omits it.  At the same
table under an always-succeeding lookup the output carries all sixteen
lineage columns in rank order, exhibiting the inconsistency between
the fallback literal and the schema of the fetch path. -/
theorem C7_missing_superkingdom_columns :
    (mainRun envFail zeroFrame).map (fun p => p.1.cols) =
      some ["TaxID", "kingdom_id", "kingdom_name", "phylum_id", "phylum_name",
            "class_id", "class_name", "order_id", "order_name", "family_id",
            "family_name", "genus_id", "genus_name", "species_id", "species_name"] ∧
    (mainRun envGood zeroFrame).map (fun p => p.1.cols) =
      some ["TaxID", "superkingdom_id", "superkingdom_name", "kingdom_id", "kingdom_name",
            "phylum_id", "phylum_name", "class_id", "class_name", "order_id", "order_name",
            "family_id", "family_name", "genus_id", "genus_name",
            "species_id", "species_name"] := by
  refine ⟨by decide, by decide⟩

/-! ## Claim C10: rows with a NaN TaxID cell -/

/-- Claim C10: a row whose TaxID cell is NaN contributes nothing to the
lookup set (every fetch call carries a TaxID value present in some
row), yet the row is preserved in the output: its cells in the original
columns are unchanged and each of its cells in the new lineage columns
holds the sentinel string None rather than being left empty. -/
theorem C10_nan_rows_preserved (env : Env) (df : DataFrame) (lrow : Row)
    (out : DataFrame) (calls : List (JValue × Nat))
    (hrun : mainRun env df = some (out, calls))
    (hmem : lrow ∈ df.rows) (hnan : lrow.lookup "TaxID" = none)
    (hclean : ∀ c, c ∉ df.cols → lrow.lookup c = none) :
    (∀ p ∈ calls, p.1 ∈ df.rows.filterMap (fun r => r.lookup "TaxID")) ∧
    fillRow (out.cols.filter (fun c => !(df.cols.contains c))) lrow ∈ out.rows ∧
    (∀ c ∈ out.cols, c ∉ df.cols →
      (fillRow (out.cols.filter (fun c2 => !(df.cols.contains c2))) lrow).lookup c =
        some (.str "None")) ∧
    (∀ c ∈ df.cols,
      (fillRow (out.cols.filter (fun c2 => !(df.cols.contains c2))) lrow).lookup c =
        lrow.lookup c) := by
  obtain ⟨hout, hcalls⟩ := mainRun_some_inv hrun
  refine ⟨?_, ?_, ?_, ?_⟩
  · intro p hp
    rw [hcalls] at hp
    unfold process_taxids at hp
    have h1 := processRounds_calls_mem (3 + 1) hp
    rw [initState_keys] at h1
    have h2 := uniqueFirst_mem.mp h1
    unfold uniqueTaxids at h2
    exact uniqueFirst_mem.mp h2
  · rw [hout]
    unfold fillNoneCols
    dsimp only
    apply List.mem_map_of_mem
    unfold mergeLeft
    dsimp only
    apply List.mem_flatMap.mpr
    exact ⟨lrow, hmem, by rw [mergeRow_nan hnan]; simp⟩
  · intro c hc hcn
    apply fillRow_lookup_filled
    · rw [List.mem_filter]
      refine ⟨hc, ?_⟩
      simp only [Bool.not_eq_eq_eq_not, Bool.not_true]
      rw [← Bool.not_eq_true]
      rw [List.elem_iff]
      exact hcn
    · exact hclean c hcn
  · intro c hc
    apply fillRow_lookup_orig
    intro hcf
    have h2 := (List.mem_filter.mp hcf).2
    have h3 : df.cols.contains c = true := List.elem_iff.mpr hc
    rw [h3] at h2
    exact absurd h2 (by decide)

/-- Witness for C10 at a two-row table whose second row has a NaN
TaxID: the filled second row is a row of the output. -/
theorem C10_nan_rows_preserved_witness :
    ∃ out calls, mainRun envFail nanFrame = some (out, calls) ∧
      fillRow (out.cols.filter (fun c => !(nanFrame.cols.contains c))) [] ∈ out.rows := by
  refine ⟨_, _, rfl, ?_⟩
  exact (C10_nan_rows_preserved envFail nanFrame [] _ _ rfl (by decide) rfl
    (fun c _ => rfl)).2.1

/-! ## Claim C8: the duplicate-identifier end-to-end scenario -/

/-- Claim C8: for the input table whose TaxID column holds 9606, 9606,
10090, under every environment: the distinct identifiers ever looked up
are exactly 9606 and 10090 in that order (each fetched in round one),
and the output has exactly three rows with the duplicate preserved and
the two 9606 rows identical, so they carry identical lineage values:
duplicates are deduplicated before lookup and restored by the left
join. -/
theorem C8_duplicates_dedup_and_join (env : Env) :
    ∃ out calls a b,
      mainRun env dupFrame = some (out, calls) ∧
      uniqueFirst (calls.map Prod.fst) = [.num 9606, .num 10090] ∧
      out.rows = [a, a, b] := by
  have hu : uniqueTaxids dupFrame = [.num 9606, .num 10090] := by decide
  have hrun : mainRun env dupFrame =
      some (fillNoneCols
              (mergeLeft dupFrame
                (recordsToFrame (process_taxids env 3 (uniqueTaxids dupFrame)).1) "TaxID")
              ((mergeLeft dupFrame
                (recordsToFrame (process_taxids env 3 (uniqueTaxids dupFrame)).1)
                "TaxID").cols.filter (fun c => !(dupFrame.cols.contains c))),
            (process_taxids env 3 (uniqueTaxids dupFrame)).2) := by
    unfold mainRun
    rw [if_neg (by decide)]
    dsimp only
    rw [if_neg (by rw [hu]; decide)]
  rw [hu] at hrun
  have hc1 := process_taxids_count env 3 (uniqueTaxids dupFrame) (.num 9606)
  rw [hu] at hc1
  rw [if_pos (by decide)] at hc1
  have hl1 : ((process_taxids env 3 [(.num 9606 : JValue), .num 10090]).1.filter
      (recFor (.num 9606))).length = 1 := by
    rw [← List.countP_eq_length_filter]
    exact hc1
  obtain ⟨rec1, hrec1⟩ := List.length_eq_one.mp hl1
  have hc2 := process_taxids_count env 3 (uniqueTaxids dupFrame) (.num 10090)
  rw [hu] at hc2
  rw [if_pos (by decide)] at hc2
  have hl2 : ((process_taxids env 3 [(.num 9606 : JValue), .num 10090]).1.filter
      (recFor (.num 10090))).length = 1 := by
    rw [← List.countP_eq_length_filter]
    exact hc2
  obtain ⟨rec2, hrec2⟩ := List.length_eq_one.mp hl2
  obtain ⟨g1, hg1⟩ : ∃ g,
      mergeRow (recordsToFrame (process_taxids env 3 [(.num 9606 : JValue), .num 10090]).1)
        "TaxID" [("TaxID", (.num 9606 : JValue))] = [g] :=
    ⟨_, mergeRow_of_unique rfl hrec1⟩
  obtain ⟨g2, hg2⟩ : ∃ g,
      mergeRow (recordsToFrame (process_taxids env 3 [(.num 9606 : JValue), .num 10090]).1)
        "TaxID" [("TaxID", (.num 10090 : JValue))] = [g] :=
    ⟨_, mergeRow_of_unique rfl hrec2⟩
  have hrows : (mergeLeft dupFrame
      (recordsToFrame (process_taxids env 3 [(.num 9606 : JValue), .num 10090]).1)
      "TaxID").rows = [g1, g1, g2] := by
    unfold mergeLeft
    dsimp only
    rw [show dupFrame.rows = [[("TaxID", (.num 9606 : JValue))],
        [("TaxID", (.num 9606 : JValue))], [("TaxID", (.num 10090 : JValue))]] from rfl]
    rw [List.flatMap_cons, List.flatMap_cons, List.flatMap_cons, List.flatMap_nil]
    rw [hg1, hg2]
    rfl
  refine ⟨_, _,
    fillRow ((mergeLeft dupFrame
      (recordsToFrame (process_taxids env 3 [(.num 9606 : JValue), .num 10090]).1)
      "TaxID").cols.filter (fun c => !(dupFrame.cols.contains c))) g1,
    fillRow ((mergeLeft dupFrame
      (recordsToFrame (process_taxids env 3 [(.num 9606 : JValue), .num 10090]).1)
      "TaxID").cols.filter (fun c => !(dupFrame.cols.contains c))) g2,
    hrun, ?_, ?_⟩
  · have hinit : initState [(.num 9606 : JValue), .num 10090] =
        [((.num 9606 : JValue), 0), ((.num 10090 : JValue), 0)] := by decide
    have hstep : (process_taxids env 3 [(.num 9606 : JValue), .num 10090]).2 =
        (roundStep env 3 [((.num 9606 : JValue), 0), ((.num 10090 : JValue), 0)]).calls ++
        (processRounds env 3 3
          (roundStep env 3 [((.num 9606 : JValue), 0), ((.num 10090 : JValue), 0)]).fails).2 := by
      unfold process_taxids
      rw [hinit]
      rw [@processRounds_succ env 3 3 [((.num 9606 : JValue), 0), ((.num 10090 : JValue), 0)] rfl]
    have hcal : (roundStep env 3 [((.num 9606 : JValue), 0), ((.num 10090 : JValue), 0)]).calls =
        [((.num 9606 : JValue), 0), ((.num 10090 : JValue), 0)] := by
      rw [roundStep_calls_cons (by omega), roundStep_calls_cons (by omega), roundStep_nil]
    rw [hstep, List.map_append, hcal]
    apply uniqueFirst_two (by decide)
    intro x hx
    obtain ⟨p, hp, he⟩ := List.mem_map.mp hx
    have h1 := processRounds_calls_mem 3 hp
    have h2 := (roundStep_fails_keys_sublist
      [((.num 9606 : JValue), 0), ((.num 10090 : JValue), 0)]).mem h1
    rw [← he]
    rcases List.mem_cons.mp h2 with hcx | hcx
    · exact Or.inl hcx
    · rcases List.mem_cons.mp hcx with hcy | hcy
      · exact Or.inr hcy
      · exact absurd hcy (by simp)
  · unfold fillNoneCols
    dsimp only
    rw [hrows]
    rfl
